import Mathlib

/- Verification of the quantitative DEG-analysis pipeline of this repository
(backend/services/deg_analyzer.py, backend/services/ml_analyzer.py,
backend/services/plot_generator.py and backend/routers/research.py),
shallowly embedded in Lean.

Modelling conventions:
* Column headers are sequences of Unicode code points (`List Nat`);
  `str.lower` and `str.strip` are modelled at the ASCII level
  (`A`-`Z` map to `a`-`z`; whitespace is the ASCII whitespace class).
* Floating-point cell values are modelled as exact rationals; pandas
  comparisons become the corresponding comparisons on `ℚ`.
* A pandas `DataFrame` is a row count together with an ordered list of
  named columns, each tagged as numeric or not.
* `raise ValueError` becomes `Except.error`.
* `np.random.randn` draws are threaded through explicitly as a function
  parameter supplying the drawn values.
-/

/-- A column header: the sequence of Unicode code points of the name. -/
abbrev ColName := List Nat

/-- Code points of a string literal, used to write down concrete column names. -/
def nameOf (s : String) : ColName := s.data.map Char.toNat

/-- ASCII model of Python `str.lower` on one code point. -/
def toLowerCp (c : Nat) : Nat := if 65 ≤ c ∧ c ≤ 90 then c + 32 else c

/-- ASCII whitespace code points (tab, LF, VT, FF, CR, space), the
characters removed by Python `str.strip`. -/
def spaceCps : List Nat := [9, 10, 11, 12, 13, 32]

/-- Whether a code point is whitespace for the purposes of `str.strip`. -/
def isSpaceCp (c : Nat) : Bool := decide (c ∈ spaceCps)

/-- Model of `str.lower` on a column header. -/
def lowerName (n : ColName) : ColName := n.map toLowerCp

/-- Model of `str.strip` on a column header: drop leading whitespace, then
trailing whitespace. -/
def stripName (n : ColName) : ColName :=
  List.rdropWhile isSpaceCp (List.dropWhile isSpaceCp n)

/-- `df.columns.str.lower().str.strip()` applied to one header, as in
`normalize_column_names` (deg_analyzer.py line 46). -/
def lowerStrip (n : ColName) : ColName := stripName (lowerName n)

/- ===== Significance classifier: `analyze_deg_data` (deg_analyzer.py 81-156).
The classifier only reads the `log2fc`, `pvalue` and `padj` columns, so the
DataFrame is viewed row-major over those three fields, with one presence flag
per column (`'padj' in df.columns` etc.).  A cell of an absent column is never
read by the function, so absent columns simply carry unused values. -/

/-- One DataFrame row restricted to the statistical fields. -/
structure DegRow where
  log2fc : ℚ
  pvalue : ℚ
  padj : ℚ
deriving DecidableEq

/-- The classifier's view of the normalized DataFrame. -/
structure DegTable where
  hasLog2fc : Bool
  hasPvalue : Bool
  hasPadj : Bool
  rows : List DegRow
deriving DecidableEq

/-- The two `ValueError`s raised by `analyze_deg_data` (lines 104-107):
`p_col` is `'padj'` when present, else `'pvalue'`; the raised message names
that column, or names `'log2fc'` when the fold-change column is absent. -/
inductive SchemaError where
  | missingPvalue
  | missingLog2fc
deriving DecidableEq

/-- The aggregate statistics returned by `analyze_deg_data` (lines 142-156).
The fields backing the claims are embedded; the top-gene lists, the
mean/median of `log2fc` and the two DataFrames returned for plotting are
outside every claim and omitted. -/
structure DegSummary where
  total_genes : Nat
  num_deg : Nat
  up : Nat
  down : Nat
  deg_percentage : ℚ
  up_percentage : ℚ
  down_percentage : ℚ
deriving DecidableEq

/-- Lines 114-117: the significance mask uses `padj` when that column is
present and `pvalue` otherwise. -/
def significantRow (t : DegTable) (pvalueThr padjThr : ℚ) (r : DegRow) : Bool :=
  if t.hasPadj then decide (r.padj < padjThr) else decide (r.pvalue < pvalueThr)

/-- Line 119: `degs = df[significant & (df['log2fc'].abs() > log2fc_threshold)]`. -/
def degRows (t : DegTable) (pvalueThr fcThr padjThr : ℚ) : List DegRow :=
  t.rows.filter (fun r => significantRow t pvalueThr padjThr r && decide (fcThr < |r.log2fc|))

/-- Line 123: `up_regulated = degs[degs['log2fc'] > 0]`. -/
def upRows (t : DegTable) (pvalueThr fcThr padjThr : ℚ) : List DegRow :=
  (degRows t pvalueThr fcThr padjThr).filter (fun r => decide (0 < r.log2fc))

/-- Line 124: `down_regulated = degs[degs['log2fc'] < 0]`. -/
def downRows (t : DegTable) (pvalueThr fcThr padjThr : ℚ) : List DegRow :=
  (degRows t pvalueThr fcThr padjThr).filter (fun r => decide (r.log2fc < 0))

/-- `analyze_deg_data` (deg_analyzer.py 81-156).  The defaults at the call
site in the router are `pvalue_threshold = 0.05`, `log2fc_threshold = 1.0`,
`padj_threshold = None`; `padj_threshold` falls back to `pvalue_threshold`
(lines 97-98).  The two schema checks of lines 100-107 precede any
computation, so on error nothing of the summary is produced. -/
def analyze_deg_data (t : DegTable) (pvalue_threshold log2fc_threshold : ℚ)
    (padj_threshold : Option ℚ) : Except SchemaError DegSummary :=
  let padjThr := padj_threshold.getD pvalue_threshold
  if t.hasPadj = false ∧ t.hasPvalue = false then Except.error SchemaError.missingPvalue
  else if t.hasLog2fc = false then Except.error SchemaError.missingLog2fc
  else
    let total := t.rows.length
    let degs := degRows t pvalue_threshold log2fc_threshold padjThr
    let nUp := (upRows t pvalue_threshold log2fc_threshold padjThr).length
    let nDown := (downRows t pvalue_threshold log2fc_threshold padjThr).length
    Except.ok
      { total_genes := total
        num_deg := degs.length
        up := nUp
        down := nDown
        deg_percentage := if 0 < total then (degs.length : ℚ) / (total : ℚ) * 100 else 0
        up_percentage := if 0 < degs.length then (nUp : ℚ) / (degs.length : ℚ) * 100 else 0
        down_percentage := if 0 < degs.length then (nDown : ℚ) / (degs.length : ℚ) * 100 else 0 }

/- ===== Helper lemmas about the classifier. -/

theorem length_split_pos_neg (l : List DegRow) (h : ∀ r ∈ l, r.log2fc ≠ 0) :
    l.length = (l.filter (fun r => decide (0 < r.log2fc))).length
      + (l.filter (fun r => decide (r.log2fc < 0))).length := by
  induction l with
  | nil => simp
  | cons a as ih =>
    have ha := h a (List.mem_cons_self a as)
    have has : ∀ r ∈ as, r.log2fc ≠ 0 := fun r hr => h r (List.mem_cons_of_mem a hr)
    rcases lt_or_gt_of_ne ha with hlt | hgt
    · have h1 : (decide (0 < a.log2fc)) = false := by
        simp only [decide_eq_false_iff_not, not_lt]; linarith
      have h2 : (decide (a.log2fc < 0)) = true := by
        simpa using hlt
      simp only [List.filter_cons, h1, h2, if_pos, List.length_cons, ih has]
      simp; omega
    · have h1 : (decide (0 < a.log2fc)) = true := by simpa using hgt
      have h2 : (decide (a.log2fc < 0)) = false := by
        simp only [decide_eq_false_iff_not, not_lt]; linarith
      simp only [List.filter_cons, h1, h2, List.length_cons, ih has]
      simp; omega

theorem mem_degRows_ne_zero (t : DegTable) (p fc pa : ℚ) (hfc : 0 ≤ fc) :
    ∀ r ∈ degRows t p fc pa, r.log2fc ≠ 0 := by
  intro r hr h0
  have := (List.mem_filter.mp hr).2
  rw [Bool.and_eq_true, decide_eq_true_iff] at this
  rw [h0] at this
  simp at this
  linarith [this.2]

theorem degRows_length_split (t : DegTable) (p fc pa : ℚ) (hfc : 0 ≤ fc) :
    (degRows t p fc pa).length = (upRows t p fc pa).length + (downRows t p fc pa).length :=
  length_split_pos_neg (degRows t p fc pa) (mem_degRows_ne_zero t p fc pa hfc)

theorem analyze_ok_fields (t : DegTable) (p fc : ℚ) (pa : Option ℚ) (s : DegSummary)
    (h : analyze_deg_data t p fc pa = Except.ok s) :
    s.total_genes = t.rows.length ∧
    s.num_deg = (degRows t p fc (pa.getD p)).length ∧
    s.up = (upRows t p fc (pa.getD p)).length ∧
    s.down = (downRows t p fc (pa.getD p)).length ∧
    s.deg_percentage = (if 0 < s.total_genes then (s.num_deg : ℚ) / (s.total_genes : ℚ) * 100 else 0) ∧
    s.up_percentage = (if 0 < s.num_deg then (s.up : ℚ) / (s.num_deg : ℚ) * 100 else 0) ∧
    s.down_percentage = (if 0 < s.num_deg then (s.down : ℚ) / (s.num_deg : ℚ) * 100 else 0) := by
  unfold analyze_deg_data at h
  split at h
  · exact absurd h (by simp)
  · split at h
    · exact absurd h (by simp)
    · rw [Except.ok.injEq] at h
      subst h
      refine ⟨rfl, rfl, rfl, rfl, rfl, rfl, rfl⟩

/-- C1: with the default thresholds (pvalue 0.05, log2fc 1.0), every table the
classifier accepts yields counts with `num_deg = up + down`, and no row
belongs to both the up-regulated and the down-regulated subset. -/
theorem deg_counts_partition (t : DegTable) (s : DegSummary)
    (h : analyze_deg_data t (1/20) 1 none = Except.ok s) :
    s.num_deg = s.up + s.down ∧
      ∀ r : DegRow, ¬(r ∈ upRows t (1/20) 1 (1/20) ∧ r ∈ downRows t (1/20) 1 (1/20)) := by
  obtain ⟨-, hnd, hu, hd, -, -, -⟩ := analyze_ok_fields t (1/20) 1 none s h
  constructor
  · rw [hnd, hu, hd]
    exact degRows_length_split t (1/20) 1 (1/20) (by norm_num)
  · rintro r ⟨hru, hrd⟩
    have h1 := (List.mem_filter.mp hru).2
    have h2 := (List.mem_filter.mp hrd).2
    rw [decide_eq_true_iff] at h1 h2
    linarith

/-- Concrete table used to instantiate the classifier theorems: three rows,
pvalue column present, padj absent, fold changes 2, -3 and 1/2. -/
def sampleDegTable : DegTable :=
  { hasLog2fc := true
    hasPvalue := true
    hasPadj := false
    rows := [⟨2, 1/100, 0⟩, ⟨-3, 1/100, 0⟩, ⟨1/2, 1/100, 0⟩] }

/-- The summary the classifier produces on `sampleDegTable`. -/
def sampleDegSummary : DegSummary :=
  { total_genes := 3
    num_deg := 2
    up := 1
    down := 1
    deg_percentage := 200/3
    up_percentage := 50
    down_percentage := 50 }

theorem sampleDeg_analyze :
    analyze_deg_data sampleDegTable (1/20) 1 none = Except.ok sampleDegSummary := by
  simp only [analyze_deg_data, sampleDegTable, sampleDegSummary, degRows, upRows, downRows,
    significantRow, Option.getD]
  norm_num [List.filter_cons, List.filter_nil, abs]

theorem deg_counts_partition_witness :
    analyze_deg_data sampleDegTable (1/20) 1 none = Except.ok sampleDegSummary ∧
      sampleDegSummary.num_deg = sampleDegSummary.up + sampleDegSummary.down :=
  ⟨sampleDeg_analyze, (deg_counts_partition sampleDegTable sampleDegSummary sampleDeg_analyze).1⟩

/-- C2: whenever `log2fc` is absent, or neither `pvalue` nor `padj` is
present, `analyze_deg_data` fails with a schema error naming a missing
column, and no summary is produced (for any thresholds). -/
theorem schema_error_on_missing_columns (t : DegTable) (p fc : ℚ) (pa : Option ℚ)
    (h : t.hasLog2fc = false ∨ (t.hasPvalue = false ∧ t.hasPadj = false)) :
    ∃ e, analyze_deg_data t p fc pa = Except.error e ∧
      (e = SchemaError.missingPvalue → t.hasPvalue = false ∧ t.hasPadj = false) ∧
      (e = SchemaError.missingLog2fc → t.hasLog2fc = false) := by
  by_cases hp : t.hasPadj = false ∧ t.hasPvalue = false
  · refine ⟨SchemaError.missingPvalue, ?_, fun _ => ⟨hp.2, hp.1⟩, fun he => ?_⟩
    · unfold analyze_deg_data
      rw [if_pos hp]
    · cases he
  · have hl : t.hasLog2fc = false := by
      rcases h with h | h
      · exact h
      · exact absurd ⟨h.2, h.1⟩ hp
    refine ⟨SchemaError.missingLog2fc, ?_, fun he => ?_, fun _ => hl⟩
    · unfold analyze_deg_data
      rw [if_neg hp, if_pos hl]
    · cases he

theorem schema_error_on_missing_columns_witness :
    ∃ e, analyze_deg_data (DegTable.mk false false false []) 1 1 none = Except.error e ∧
      (e = SchemaError.missingPvalue →
        (DegTable.mk false false false []).hasPvalue = false ∧
        (DegTable.mk false false false []).hasPadj = false) ∧
      (e = SchemaError.missingLog2fc → (DegTable.mk false false false []).hasLog2fc = false) :=
  schema_error_on_missing_columns (DegTable.mk false false false []) 1 1 none (by decide)

/-- C9: in every summary the classifier returns (for a nonnegative fold-change
threshold, which includes the default 1.0), the up and down percentages are
`up/num_deg*100` and `down/num_deg*100` and sum to 100 when `num_deg > 0`,
and both are 0 when `num_deg = 0`. -/
theorem percentage_consistency (t : DegTable) (p fc : ℚ) (pa : Option ℚ) (s : DegSummary)
    (hfc : 0 ≤ fc) (h : analyze_deg_data t p fc pa = Except.ok s) :
    (0 < s.num_deg →
        s.up_percentage = (s.up : ℚ) / (s.num_deg : ℚ) * 100 ∧
        s.down_percentage = (s.down : ℚ) / (s.num_deg : ℚ) * 100 ∧
        s.up_percentage + s.down_percentage = 100) ∧
      (s.num_deg = 0 → s.up_percentage = 0 ∧ s.down_percentage = 0) := by
  obtain ⟨-, hnd, hu, hd, -, hup, hdp⟩ := analyze_ok_fields t p fc pa s h
  have hsplit : s.num_deg = s.up + s.down := by
    rw [hnd, hu, hd]
    exact degRows_length_split t p fc (pa.getD p) hfc
  constructor
  · intro hpos
    have hupv : s.up_percentage = (s.up : ℚ) / (s.num_deg : ℚ) * 100 := by
      rw [hup, if_pos hpos]
    have hdpv : s.down_percentage = (s.down : ℚ) / (s.num_deg : ℚ) * 100 := by
      rw [hdp, if_pos hpos]
    refine ⟨hupv, hdpv, ?_⟩
    have hne : (s.num_deg : ℚ) ≠ 0 := by
      exact_mod_cast Nat.pos_iff_ne_zero.mp hpos
    have hsum : (s.up : ℚ) + (s.down : ℚ) = (s.num_deg : ℚ) := by
      exact_mod_cast hsplit.symm
    rw [hupv, hdpv]
    field_simp
    linarith [hsum]
  · intro hz
    constructor
    · rw [hup, hz]; simp
    · rw [hdp, hz]; simp

theorem percentage_consistency_witness :
    0 < sampleDegSummary.num_deg ∧
      sampleDegSummary.up_percentage + sampleDegSummary.down_percentage = 100 :=
  ⟨by decide,
    ((percentage_consistency sampleDegTable (1/20) 1 none sampleDegSummary
        (by norm_num) sampleDeg_analyze).1 (by decide)).2.2⟩

/- ===== The DataFrame model and `normalize_column_names` (deg_analyzer.py 35-78). -/

/-- One DataFrame column: its header, whether pandas classifies its dtype as
numeric, and its cells (only read for numeric columns, so every cell is a
rational). -/
structure Col where
  name : ColName
  numeric : Bool
  vals : List ℚ
deriving DecidableEq

/-- A pandas DataFrame: row count plus the ordered column list. -/
structure DF where
  nRows : Nat
  cols : List Col
deriving DecidableEq

/-- The `column_mapping` dict of deg_analyzer.py lines 49-72, in insertion
order (Python dicts iterate in insertion order). -/
def columnMapping : List (ColName × ColName) :=
  [ (nameOf "log2fc", nameOf "log2fc"),
    (nameOf "log2_fc", nameOf "log2fc"),
    (nameOf "logfc", nameOf "log2fc"),
    (nameOf "log_fold_change", nameOf "log2fc"),
    (nameOf "fold_change", nameOf "log2fc"),
    (nameOf "fc", nameOf "log2fc"),
    (nameOf "pvalue", nameOf "pvalue"),
    (nameOf "p_value", nameOf "pvalue"),
    (nameOf "pval", nameOf "pvalue"),
    (nameOf "p", nameOf "pvalue"),
    (nameOf "padj", nameOf "padj"),
    (nameOf "p_adj", nameOf "padj"),
    (nameOf "adjusted_pvalue", nameOf "padj"),
    (nameOf "fdr", nameOf "padj"),
    (nameOf "adj_pval", nameOf "padj"),
    (nameOf "gene_id", nameOf "gene_id"),
    (nameOf "gene", nameOf "gene_id"),
    (nameOf "gene_name", nameOf "gene_id"),
    (nameOf "geneid", nameOf "gene_id") ]

/-- The header list of a column list (`df.columns`). -/
def colNames (cs : List Col) : List ColName := cs.map (fun c => c.name)

/-- `df.rename(columns=...)`: every column whose header equals `old` is
renamed to `new`; values are untouched. -/
def renameCols (old new : ColName) (cs : List Col) : List Col :=
  cs.map (fun c => if c.name = old then { c with name := new } else c)

/-- One iteration of the loop of lines 74-76: rename `old` to `new` only when
`old` is a column and `new` is not. -/
def renameStep (cs : List Col) (q : ColName × ColName) : List Col :=
  if q.1 ∈ colNames cs ∧ ¬ q.2 ∈ colNames cs then renameCols q.1 q.2 cs else cs

/-- The whole renaming loop over `column_mapping`. -/
def applyMapping (cs : List Col) : List Col := columnMapping.foldl renameStep cs

/-- Line 46: `df.columns = df.columns.str.lower().str.strip()`. -/
def lowerStripCols (cs : List Col) : List Col :=
  cs.map (fun c => { c with name := lowerStrip c.name })

/-- `normalize_column_names` (deg_analyzer.py 35-78): lower-case and strip
every header, then run the synonym-renaming loop. -/
def normalize_column_names (df : DF) : DF :=
  { df with cols := applyMapping (lowerStripCols df.cols) }

/- ===== String-level lemmas: `lowerStrip` is idempotent. -/

theorem toLowerCp_idem (c : Nat) : toLowerCp (toLowerCp c) = toLowerCp c := by
  unfold toLowerCp
  split_ifs <;> omega

theorem isSpaceCp_toLowerCp (c : Nat) : isSpaceCp (toLowerCp c) = isSpaceCp c := by
  unfold toLowerCp isSpaceCp spaceCps
  split_ifs with h
  · rw [decide_eq_decide]
    simp only [List.mem_cons, List.not_mem_nil, or_false]
    omega
  · rfl

theorem lowerName_idem (n : ColName) : lowerName (lowerName n) = lowerName n := by
  have h : toLowerCp ∘ toLowerCp = toLowerCp := funext toLowerCp_idem
  simp [lowerName, List.map_map, h]

theorem lowerName_dropWhile (l : ColName) :
    lowerName (List.dropWhile isSpaceCp l) = List.dropWhile isSpaceCp (lowerName l) := by
  have h : isSpaceCp ∘ toLowerCp = isSpaceCp := funext isSpaceCp_toLowerCp
  rw [lowerName, lowerName, List.dropWhile_map, h]

theorem lowerName_reverse (l : ColName) :
    lowerName l.reverse = (lowerName l).reverse := by
  simp [lowerName, List.map_reverse]

theorem lowerName_rdropWhile (l : ColName) :
    lowerName (List.rdropWhile isSpaceCp l) = List.rdropWhile isSpaceCp (lowerName l) := by
  unfold List.rdropWhile
  rw [lowerName_reverse, lowerName_dropWhile, lowerName_reverse]

theorem lowerName_stripName (l : ColName) :
    lowerName (stripName l) = stripName (lowerName l) := by
  unfold stripName
  rw [lowerName_rdropWhile, lowerName_dropWhile]

theorem stripName_idem (n : ColName) : stripName (stripName n) = stripName n := by
  unfold stripName
  have hd : List.dropWhile isSpaceCp (List.dropWhile isSpaceCp n)
      = List.dropWhile isSpaceCp n := List.dropWhile_idempotent _ _
  have hinner : List.dropWhile isSpaceCp
      (List.rdropWhile isSpaceCp (List.dropWhile isSpaceCp n))
      = List.rdropWhile isSpaceCp (List.dropWhile isSpaceCp n) := by
    rw [List.dropWhile_eq_self_iff]
    intro hl
    have hpre : List.rdropWhile isSpaceCp (List.dropWhile isSpaceCp n)
        <+: List.dropWhile isSpaceCp n :=
      List.rdropWhile_prefix _ (List.dropWhile isSpaceCp n)
    have hlen : 0 < (List.dropWhile isSpaceCp n).length :=
      lt_of_lt_of_le hl hpre.length_le
    have h0 := List.IsPrefix.getElem hpre hl
    simp only [List.get_eq_getElem]
    rw [h0]
    have := List.dropWhile_eq_self_iff.mp hd hlen
    simpa using this
  rw [hinner, List.rdropWhile_idempotent]

theorem lowerStrip_idem (n : ColName) : lowerStrip (lowerStrip n) = lowerStrip n := by
  unfold lowerStrip
  rw [lowerName_stripName, stripName_idem, lowerName_idem]

/- ===== Renaming-loop lemmas.  The four canonical targets of the synonym
table are never removed by a rename (a firing entry never has a canonical
source), which makes the loop a no-op on its own output. -/

/-- The canonical header names, the only rename targets of `column_mapping`. -/
def canonNames : List ColName :=
  [nameOf "log2fc", nameOf "pvalue", nameOf "padj", nameOf "gene_id"]

theorem mapping_good : ∀ q ∈ columnMapping,
    q.2 ∈ canonNames ∧ (q.1 ∈ canonNames → q.1 = q.2) := by decide

theorem mapping_targets_fixed : ∀ q ∈ columnMapping, lowerStrip q.2 = q.2 := by decide

theorem mem_colNames_renameCols (x old new : ColName) (cs : List Col) :
    x ∈ colNames (renameCols old new cs) ↔
      (x ∈ colNames cs ∧ x ≠ old) ∨ (x = new ∧ old ∈ colNames cs) := by
  simp only [colNames, renameCols, List.map_map, List.mem_map, Function.comp]
  constructor
  · rintro ⟨c, hc, hx⟩
    by_cases h : c.name = old
    · rw [if_pos h] at hx
      exact Or.inr ⟨hx.symm, ⟨c, hc, h⟩⟩
    · rw [if_neg h] at hx
      exact Or.inl ⟨⟨c, hc, hx⟩, hx ▸ h⟩
  · rintro (⟨⟨c, hc, hx⟩, hne⟩ | ⟨rfl, ⟨c, hc, hold⟩⟩)
    · exact ⟨c, hc, by rw [if_neg (hx.symm ▸ hne)]; exact hx⟩
    · exact ⟨c, hc, by rw [if_pos hold]⟩

theorem renameStep_pres (cs : List Col) (q : ColName × ColName)
    (hq2 : q.2 ∈ canonNames) (hq1 : q.1 ∈ canonNames → q.1 = q.2)
    (po pn : ColName) (hpn : pn ∈ canonNames) (hp1 : po ∈ canonNames → po = pn)
    (hInv : po ∈ colNames cs → pn ∈ colNames cs) :
    po ∈ colNames (renameStep cs q) → pn ∈ colNames (renameStep cs q) := by
  unfold renameStep
  split_ifs with hfire
  · obtain ⟨hin, hout⟩ := hfire
    have hqne : q.1 ≠ q.2 := fun h => hout (h ▸ hin)
    have hq1nc : q.1 ∉ canonNames := fun hc => hqne (hq1 hc)
    intro hpo
    rw [mem_colNames_renameCols] at hpo ⊢
    rcases hpo with ⟨hpoin, hponeq⟩ | ⟨rfl, -⟩
    · exact Or.inl ⟨hInv hpoin, fun h => hq1nc (h ▸ hpn)⟩
    · exact Or.inr ⟨(hp1 hq2).symm, hin⟩
  · exact hInv

theorem renameStep_self (cs : List Col) (q : ColName × ColName) :
    q.1 ∈ colNames (renameStep cs q) → q.2 ∈ colNames (renameStep cs q) := by
  unfold renameStep
  split_ifs with hfire
  · obtain ⟨hin, hout⟩ := hfire
    have hqne : q.1 ≠ q.2 := fun h => hout (h ▸ hin)
    intro h1
    rw [mem_colNames_renameCols] at h1
    rcases h1 with ⟨-, hne⟩ | ⟨heq, -⟩
    · exact absurd rfl hne
    · exact absurd heq hqne
  · intro h1
    by_cases h2 : q.2 ∈ colNames cs
    · exact h2
    · exact absurd ⟨h1, h2⟩ hfire

theorem foldl_renameStep_pres (L : List (ColName × ColName))
    (hL : ∀ q ∈ L, q.2 ∈ canonNames ∧ (q.1 ∈ canonNames → q.1 = q.2))
    (po pn : ColName) (hpn : pn ∈ canonNames) (hp1 : po ∈ canonNames → po = pn) :
    ∀ cs : List Col, (po ∈ colNames cs → pn ∈ colNames cs) →
      (po ∈ colNames (L.foldl renameStep cs) → pn ∈ colNames (L.foldl renameStep cs)) := by
  induction L with
  | nil => intro cs h; exact h
  | cons q L ih =>
    intro cs h
    simp only [List.foldl_cons]
    have hq := hL q (List.mem_cons_self q L)
    exact ih (fun r hr => hL r (List.mem_cons_of_mem q hr)) (renameStep cs q)
      (renameStep_pres cs q hq.1 hq.2 po pn hpn hp1 h)

theorem foldl_renameStep_inv (L : List (ColName × ColName))
    (hL : ∀ q ∈ L, q.2 ∈ canonNames ∧ (q.1 ∈ canonNames → q.1 = q.2)) :
    ∀ cs : List Col, ∀ q ∈ L,
      q.1 ∈ colNames (L.foldl renameStep cs) → q.2 ∈ colNames (L.foldl renameStep cs) := by
  induction L with
  | nil => intro cs q hq; cases hq
  | cons r L ih =>
    intro cs q hq
    simp only [List.foldl_cons]
    have hLtail : ∀ s ∈ L, s.2 ∈ canonNames ∧ (s.1 ∈ canonNames → s.1 = s.2) :=
      fun s hs => hL s (List.mem_cons_of_mem r hs)
    rcases List.mem_cons.mp hq with rfl | hq'
    · have hr := hL q (List.mem_cons_self q L)
      exact foldl_renameStep_pres L hLtail q.1 q.2 hr.1 hr.2 (renameStep cs q)
        (renameStep_self cs q)
    · exact ih hLtail (renameStep cs r) q hq'

theorem foldl_renameStep_id (L : List (ColName × ColName)) (cs : List Col)
    (h : ∀ q ∈ L, q.1 ∈ colNames cs → q.2 ∈ colNames cs) :
    L.foldl renameStep cs = cs := by
  induction L with
  | nil => rfl
  | cons q L ih =>
    have hstep : renameStep cs q = cs := by
      unfold renameStep
      rw [if_neg]
      rintro ⟨h1, h2⟩
      exact h2 (h q (List.mem_cons_self q L) h1)
    simp only [List.foldl_cons, hstep]
    exact ih (fun r hr => h r (List.mem_cons_of_mem q hr))

theorem mem_renameStep (c : Col) (cs : List Col) (q : ColName × ColName)
    (h : c ∈ renameStep cs q) : c ∈ cs ∨ c.name = q.2 := by
  unfold renameStep at h
  split_ifs at h
  · rcases List.mem_map.mp h with ⟨c', hc', hceq⟩
    by_cases hn : c'.name = q.1
    · rw [if_pos hn] at hceq
      exact Or.inr (hceq ▸ rfl)
    · rw [if_neg hn] at hceq
      exact Or.inl (hceq ▸ hc')
  · exact Or.inl h

theorem foldl_renameStep_fixed (L : List (ColName × ColName))
    (hL : ∀ q ∈ L, lowerStrip q.2 = q.2) :
    ∀ cs : List Col, (∀ c ∈ cs, lowerStrip c.name = c.name) →
      ∀ c ∈ L.foldl renameStep cs, lowerStrip c.name = c.name := by
  induction L with
  | nil => intro cs h; exact h
  | cons q L ih =>
    intro cs h
    simp only [List.foldl_cons]
    refine ih (fun r hr => hL r (List.mem_cons_of_mem q hr)) (renameStep cs q) ?_
    intro c hc
    rcases mem_renameStep c cs q hc with hmem | hname
    · exact h c hmem
    · rw [hname]
      exact hL q (List.mem_cons_self q L)

theorem map_eq_self_of_mem {α : Type} (f : α → α) (l : List α)
    (h : ∀ x ∈ l, f x = x) : l.map f = l := by
  induction l with
  | nil => rfl
  | cons a as ih =>
    rw [List.map_cons, h a (List.mem_cons_self a as),
      ih (fun x hx => h x (List.mem_cons_of_mem a hx))]

/-- C8: `normalize_column_names` is idempotent — normalizing an
already-normalized table changes nothing: same headers in the same order,
same values. -/
theorem normalize_column_names_idempotent (df : DF) :
    normalize_column_names (normalize_column_names df) = normalize_column_names df := by
  unfold normalize_column_names
  simp only
  have hinit : ∀ c ∈ lowerStripCols df.cols, lowerStrip c.name = c.name := by
    intro c hc
    rcases List.mem_map.mp hc with ⟨c', _, rfl⟩
    exact lowerStrip_idem c'.name
  have hfix : ∀ c ∈ applyMapping (lowerStripCols df.cols), lowerStrip c.name = c.name :=
    foldl_renameStep_fixed columnMapping mapping_targets_fixed (lowerStripCols df.cols) hinit
  have hls : lowerStripCols (applyMapping (lowerStripCols df.cols))
      = applyMapping (lowerStripCols df.cols) := by
    unfold lowerStripCols
    refine map_eq_self_of_mem _ _ (fun c hc => ?_)
    rw [hfix c hc]
  have hQ : ∀ q ∈ columnMapping,
      q.1 ∈ colNames (applyMapping (lowerStripCols df.cols)) →
      q.2 ∈ colNames (applyMapping (lowerStripCols df.cols)) :=
    foldl_renameStep_inv columnMapping mapping_good (lowerStripCols df.cols)
  have happ : applyMapping (applyMapping (lowerStripCols df.cols))
      = applyMapping (lowerStripCols df.cols) :=
    foldl_renameStep_id columnMapping (applyMapping (lowerStripCols df.cols)) hQ
  rw [hls, happ]

/- ===== Expression-matrix extraction: `extract_expression_matrix`
(ml_analyzer.py 20-51), called by all six model procedures. -/

/-- The `exclude` list of ml_analyzer.py lines 34-35, exactly as written in
the code. -/
def mlExclude : List ColName :=
  [nameOf "log2fc", nameOf "pvalue", nameOf "padj", nameOf "p_value", nameOf "p_adj",
   nameOf "fdr", nameOf "adj_pval", nameOf "fold_change", nameOf "fc", nameOf "logfc"]

/-- Line 38: `[e.lower() for e in exclude]`. -/
def mlExcludeLowered : List ColName := mlExclude.map lowerName

/-- Lines 30-38: candidate sample columns are the numeric columns whose
lower-cased name is not in the exclude list. -/
def sampleColumnNames (df : DF) : List ColName :=
  (colNames (df.cols.filter (fun c => c.numeric))).filter
    (fun n => decide (¬ lowerName n ∈ mlExcludeLowered))

/-- Lines 42-43: the six synthetic column names `Sample_1` .. `Sample_6`. -/
def syntheticSampleNames : List ColName :=
  [nameOf "Sample_1", nameOf "Sample_2", nameOf "Sample_3",
   nameOf "Sample_4", nameOf "Sample_5", nameOf "Sample_6"]

/-- Lines 45-47: `if col not in df.columns: df[col] = np.random.randn(len(df))`
— appends a fresh numeric column of `len(df)` draws to the caller's
DataFrame; `rand i` supplies the draws for the i-th synthetic column. -/
def addColStep (rand : Nat → List ℚ) (d : DF) (q : Nat × ColName) : DF :=
  if q.2 ∈ colNames d.cols then d
  else { d with cols := d.cols ++ [⟨q.2, true, (rand q.1).take d.nRows⟩] }

/-- The whole synthetic-column loop of lines 45-47. -/
def addSyntheticCols (rand : Nat → List ℚ) (df : DF) : DF :=
  syntheticSampleNames.enum.foldl (addColStep rand) df

/-- `extract_expression_matrix` (lines 20-51): returns the (possibly
mutated) DataFrame together with the selected sample-column names.  The
returned `expr_matrix` itself is `df[sample_columns].copy()`, a fresh
restriction of the result; the claims concern the shared DataFrame and the
selected names. -/
def extract_expression_matrix (rand : Nat → List ℚ) (df : DF) : DF × List ColName :=
  if (sampleColumnNames df).length < 2 then
    (addSyntheticCols rand df, syntheticSampleNames)
  else
    (df, sampleColumnNames df)

/-- Lines 96-97 (SVM): `cv=min(5, n_samples // 2)`, where `n_samples` is the
row count of the transposed samples-by-genes matrix, i.e. the number of
selected sample columns. -/
def svmCvFolds (rand : Nat → List ℚ) (df : DF) : Nat :=
  min 5 ((extract_expression_matrix rand df).2.length / 2)

/-- Lines 164-165 (random forest): the identical fold computation. -/
def rfCvFolds (rand : Nat → List ℚ) (df : DF) : Nat :=
  min 5 ((extract_expression_matrix rand df).2.length / 2)

/-- Deterministic stand-in for the random streams in concrete instances. -/
def zeroDraws : Nat → List ℚ := fun _ => List.replicate 8 0

/-- A normalized table with exactly two candidate sample columns. -/
def dfTwoSamples : DF :=
  { nRows := 1
    cols := [⟨nameOf "log2fc", true, [2]⟩, ⟨nameOf "padj", true, [1]⟩,
             ⟨nameOf "s1", true, [3]⟩, ⟨nameOf "s2", true, [4]⟩] }

/-- A normalized table with no candidate sample columns. -/
def dfNoSamples : DF :=
  { nRows := 1
    cols := [⟨nameOf "log2fc", true, [2]⟩, ⟨nameOf "padj", true, [1]⟩] }

/-- C5 counterexample: on a standardized matrix built from two sample
columns, both classifiers hand `cv = min(5, 2 // 2) = 1` to
`cross_val_score`, so the fold count IS less than 2 (sklearn then raises
and the procedure is skipped by the router). -/
theorem cv_folds_below_two :
    (extract_expression_matrix zeroDraws dfTwoSamples).2.length = 2 ∧
    svmCvFolds zeroDraws dfTwoSamples = 1 ∧
    rfCvFolds zeroDraws dfTwoSamples = 1 ∧
    ¬ 2 ≤ svmCvFolds zeroDraws dfTwoSamples := by decide

/-- C5 amended: the fold count equals `min(5, n // 2)` with integer division
and NO lower clamp; it is at least 2 exactly when there are at least 4
samples.  For 2 or 3 samples the computed value is 1. -/
theorem cv_folds_formula (rand : Nat → List ℚ) (df : DF) :
    svmCvFolds rand df = min 5 ((extract_expression_matrix rand df).2.length / 2) ∧
    rfCvFolds rand df = min 5 ((extract_expression_matrix rand df).2.length / 2) ∧
    (2 ≤ svmCvFolds rand df ↔ 4 ≤ (extract_expression_matrix rand df).2.length) ∧
    (2 ≤ rfCvFolds rand df ↔ 4 ≤ (extract_expression_matrix rand df).2.length) := by
  refine ⟨rfl, rfl, ?_, ?_⟩ <;> simp only [svmCvFolds, rfCvFolds] <;> omega

/-- C6 counterexample: on a table with fewer than two candidate columns the
extractor appends the six synthetic `Sample_i` columns to the SHARED
DataFrame, so the table seen by the next procedure has different columns
than the one passed in. -/
theorem extract_mutates_shared_table :
    (extract_expression_matrix zeroDraws dfNoSamples).1 ≠ dfNoSamples ∧
    (extract_expression_matrix zeroDraws dfNoSamples).1.cols.length = 8 ∧
    dfNoSamples.cols.length = 2 := by decide

theorem foldl_addColStep_append (rand : Nat → List ℚ) (L : List (Nat × ColName)) :
    ∀ d : DF, ∃ added, (L.foldl (addColStep rand) d).cols = d.cols ++ added ∧
      (L.foldl (addColStep rand) d).nRows = d.nRows := by
  induction L with
  | nil => exact fun d => ⟨[], by simp, rfl⟩
  | cons q L ih =>
    intro d
    simp only [List.foldl_cons]
    obtain ⟨added, hcols, hrows⟩ := ih (addColStep rand d q)
    unfold addColStep at hcols hrows ⊢
    split_ifs at hcols hrows ⊢
    · exact ⟨added, hcols, hrows⟩
    · refine ⟨⟨q.2, true, (rand q.1).take d.nRows⟩ :: added, ?_, hrows⟩
      rw [hcols]
      simp

/-- C6 amended: a table with at least two candidate sample columns is passed
through unchanged, and in every case the extractor only ever APPENDS columns
to the shared table (row count and existing columns, order and values
included, are preserved); with fewer than two candidates the appended
columns are the synthetic `Sample_i` ones. -/
theorem extract_frame_condition (rand : Nat → List ℚ) (df : DF) :
    (2 ≤ (sampleColumnNames df).length → (extract_expression_matrix rand df).1 = df) ∧
    ∃ added, (extract_expression_matrix rand df).1.cols = df.cols ++ added ∧
      (extract_expression_matrix rand df).1.nRows = df.nRows := by
  unfold extract_expression_matrix
  split_ifs with hlt
  · refine ⟨fun h => absurd h (by omega), ?_⟩
    exact foldl_addColStep_append rand syntheticSampleNames.enum df
  · exact ⟨fun _ => rfl, ⟨[], by simp, rfl⟩⟩

theorem extract_frame_condition_witness :
    2 ≤ (sampleColumnNames dfTwoSamples).length ∧
    (extract_expression_matrix zeroDraws dfTwoSamples).1 = dfTwoSamples :=
  ⟨by decide, (extract_frame_condition zeroDraws dfTwoSamples).1 (by decide)⟩

/- ===== C7: the reserved-name filter of the extractor. -/

/-- The reserved statistical names as the SPEC words them (section 4.4 and
claim C7): `log2fc, pvalue, padj` and all their pre-normalization synonyms.
Written from the spec for comparison with the code's `exclude` list; this is
not part of the program. -/
def specReservedNames : List ColName :=
  [nameOf "log2fc", nameOf "log2_fc", nameOf "logfc", nameOf "log_fold_change",
   nameOf "fold_change", nameOf "fc",
   nameOf "pvalue", nameOf "p_value", nameOf "pval", nameOf "p",
   nameOf "padj", nameOf "p_adj", nameOf "adjusted_pvalue", nameOf "fdr", nameOf "adj_pval"]

/-- Candidate selection as the spec describes it, for comparison. -/
def specSampleColumnNames (df : DF) : List ColName :=
  (colNames (df.cols.filter (fun c => c.numeric))).filter
    (fun n => decide (¬ lowerName n ∈ specReservedNames))

/-- A normalized table in which both `pvalue` and a leftover `pval` column
exist (the normalizer leaves `pval` untouched when `pvalue` is already
present), plus two genuine sample columns. -/
def dfLeftoverPval : DF :=
  { nRows := 1
    cols := [⟨nameOf "log2fc", true, [2]⟩, ⟨nameOf "pvalue", true, [1]⟩,
             ⟨nameOf "pval", true, [1]⟩, ⟨nameOf "s1", true, [3]⟩,
             ⟨nameOf "s2", true, [4]⟩] }

/-- C7 counterexample: the code's exclude list omits `pval` (and `p`,
`adjusted_pvalue`, `log2_fc`, `log_fold_change`), so a leftover numeric
`pval` column IS selected as a sample expression column, unlike what the
claim states. -/
theorem leftover_pval_is_candidate :
    nameOf "pval" ∈ sampleColumnNames dfLeftoverPval ∧
    ¬ nameOf "pval" ∈ specSampleColumnNames dfLeftoverPval ∧
    sampleColumnNames dfLeftoverPval ≠ specSampleColumnNames dfLeftoverPval := by decide

/-- C7 amended: the candidates are exactly the numeric columns whose
lower-cased name is outside the code's ten-entry exclude list
`log2fc, pvalue, padj, p_value, p_adj, fdr, adj_pval, fold_change, fc,
logfc`; synonyms missing from that list (`pval`, `p`, `adjusted_pvalue`,
`log2_fc`, `log_fold_change`) are NOT excluded. -/
theorem sample_columns_characterization (df : DF) (n : ColName) :
    n ∈ sampleColumnNames df ↔
      ((∃ c ∈ df.cols, c.name = n ∧ c.numeric = true) ∧ ¬ lowerName n ∈ mlExcludeLowered) := by
  unfold sampleColumnNames colNames
  simp only [List.mem_filter, List.mem_map, decide_eq_true_iff]
  aesop

/- ===== Volcano-plot y-values: `generate_volcano_plot`
(plot_generator.py 36-95).  The claims concern the series handed to
`-np.log10`; NaN-free columns are modelled, so `replace(0, nan).fillna(v)`
replaces exactly the zero entries by `v`. -/

/-- `series.min()` of a nonempty pandas numeric series. -/
def seriesMin : List ℚ → ℚ
  | [] => 0
  | x :: xs => xs.foldl min x

/-- Line 61: the fill value `df[pvalue_col].min() / 10` — the minimum is
taken over the WHOLE column, zeros included. -/
def volcanoFillValue (ps : List ℚ) : ℚ := seriesMin ps / 10

/-- Line 61: `df[pvalue_col].replace(0, np.nan).fillna(min/10)`, the series
of values handed to `-np.log10`. -/
def volcanoLogInputs (ps : List ℚ) : List ℚ :=
  ps.map (fun p => if p = 0 then volcanoFillValue ps else p)

/-- Modelled from the spec (section 4.6 and claim C3): the replacement値 is
one-tenth of the smallest NONZERO p-value of the column.  For comparison
only; not part of the program. -/
def specVolcanoFillValue (ps : List ℚ) : ℚ :=
  seriesMin (ps.filter (fun p => decide (p ≠ 0))) / 10

/-- The spec-worded replacement applied to the column, for comparison. -/
def specVolcanoLogInputs (ps : List ℚ) : List ℚ :=
  ps.map (fun p => if p = 0 then specVolcanoFillValue ps else p)

/-- C3 (refuted by the code): on the p-value column `[0, 1/2]` the code's
fill value is `min(0, 1/2)/10 = 0`, so the zero p-value reaches the
logarithm unchanged and the plotted y-value `-log10 0` is NOT finite.  The
spec-worded replacement would hand `1/20` to the logarithm instead. -/
theorem volcano_zero_pvalue_reaches_log :
    volcanoFillValue [0, 1/2] = 0 ∧
    volcanoLogInputs [0, 1/2] = [0, 1/2] ∧
    ¬ (∀ q ∈ volcanoLogInputs [0, 1/2], 0 < q) ∧
    specVolcanoLogInputs [0, 1/2] = [1/20, 1/2] := by
  have hfill : volcanoFillValue [0, 1/2] = 0 := by
    unfold volcanoFillValue seriesMin
    norm_num
  have hlog : volcanoLogInputs [0, 1/2] = [0, 1/2] := by
    unfold volcanoLogInputs
    rw [List.map_cons, List.map_cons, List.map_nil]
    rw [if_pos rfl, if_neg (by norm_num), hfill]
  refine ⟨hfill, hlog, ?_, ?_⟩
  · intro h
    have := h 0 (by rw [hlog]; exact List.mem_cons_self 0 [1/2])
    exact lt_irrefl 0 this
  · unfold specVolcanoLogInputs specVolcanoFillValue seriesMin
    norm_num

/- ===== Router plot assembly: `analyze_research` (research.py 102-241). -/

/-- Outcome of one model-or-render step: the appended plot entry (modelled
by its type tag) when the step body ran to completion, or the exception
message it raised. -/
abbrev StepResult := Except String String

/-- The per-plot steps of the router in source order.  `pathway` is `none`
when no parsed enrichment table is available (line 150). -/
structure ProcOutcomes where
  volcano : StepResult
  pca : StepResult
  heatmap : StepResult
  pathway : Option StepResult
  svm : StepResult
  rf : StepResult
  hc : StepResult
  km : StepResult
  lasso : StepResult
  ridge : StepResult

/-- One `try: ... plots.append(...) except Exception: print(warning)` block
(e.g. lines 121-132): append the plot on success, keep the list unchanged on
failure. -/
def tryAppend (plots : List String) (r : StepResult) : List String :=
  match r with
  | Except.ok p => plots ++ [p]
  | Except.error _ => plots

/-- Lines 102-241: the volcano block (105-119) re-raises its exception as an
HTTP 500 (`raise HTTPException`), aborting the request; every other block
catches its exception, prints a warning and continues. -/
def assemblePlots (o : ProcOutcomes) : Except String (List String) :=
  match o.volcano with
  | Except.error e => Except.error ("Failed to generate volcano plot: " ++ e)
  | Except.ok v =>
    let plots := [v]
    let plots := tryAppend plots o.pca
    let plots := tryAppend plots o.heatmap
    let plots := match o.pathway with
      | none => plots
      | some r => tryAppend plots r
    let plots := tryAppend plots o.svm
    let plots := tryAppend plots o.rf
    let plots := tryAppend plots o.hc
    let plots := tryAppend plots o.km
    let plots := tryAppend plots o.lasso
    let plots := tryAppend plots o.ridge
    Except.ok plots

/-- The segment a step contributes to the plot sequence. -/
def stepSeg (r : StepResult) : List String :=
  match r with
  | Except.ok p => [p]
  | Except.error _ => []

/-- The segment of the optional pathway step. -/
def pathwaySeg (r : Option StepResult) : List String :=
  match r with
  | none => []
  | some r => stepSeg r

/-- The plots appended after the volcano entry, one optional segment per
step, in source order — a failing step contributes the empty segment. -/
def plotsAfterVolcano (o : ProcOutcomes) : List String :=
  stepSeg o.pca ++ stepSeg o.heatmap ++ pathwaySeg o.pathway ++ stepSeg o.svm
    ++ stepSeg o.rf ++ stepSeg o.hc ++ stepSeg o.km ++ stepSeg o.lasso ++ stepSeg o.ridge

theorem tryAppend_eq (plots : List String) (r : StepResult) :
    tryAppend plots r = plots ++ stepSeg r := by
  cases r <;> simp [tryAppend, stepSeg]

/-- A request state in which every step succeeds except the volcano render. -/
def onlyVolcanoFails : ProcOutcomes :=
  { volcano := Except.error "boom"
    pca := Except.ok "pca"
    heatmap := Except.ok "heatmap"
    pathway := none
    svm := Except.ok "svm"
    rf := Except.ok "rf"
    hc := Except.ok "hc"
    km := Except.ok "km"
    lasso := Except.ok "lasso"
    ridge := Except.ok "ridge" }

/-- C4 counterexample: the failure of one individual render step — the
volcano plot — aborts the WHOLE request (the router raises an HTTP 500),
even though every other procedure succeeded.  -/
theorem volcano_failure_fails_request :
    (assemblePlots onlyVolcanoFails).isOk = false ∧
    (onlyVolcanoFails.pca).isOk = true ∧ (onlyVolcanoFails.heatmap).isOk = true ∧
    (onlyVolcanoFails.svm).isOk = true ∧ (onlyVolcanoFails.rf).isOk = true ∧
    (onlyVolcanoFails.hc).isOk = true ∧ (onlyVolcanoFails.km).isOk = true ∧
    (onlyVolcanoFails.lasso).isOk = true ∧ (onlyVolcanoFails.ridge).isOk = true := by
  refine ⟨rfl, rfl, rfl, rfl, rfl, rfl, rfl, rfl, rfl⟩

/-- C4 amended: every step EXCEPT the volcano render is isolated — the
request succeeds exactly when the volcano step does, and each non-volcano
failure only omits that step's entry from the sequence (the output is the
concatenation of the successful steps' segments, in order); a volcano
failure aborts the request. -/
theorem request_fails_only_on_volcano (o : ProcOutcomes) :
    ((assemblePlots o).isOk ↔ (o.volcano).isOk) ∧
    assemblePlots o =
      Except.mapError (fun e => "Failed to generate volcano plot: " ++ e)
        (Except.map (fun v => v :: plotsAfterVolcano o) o.volcano) := by
  cases hv : o.volcano with
  | error e =>
    constructor
    · simp [assemblePlots, hv, Except.isOk, Except.toBool]
    · simp [assemblePlots, hv, Except.mapError, Except.map]
  | ok v =>
    constructor
    · simp [assemblePlots, hv, Except.isOk, Except.toBool]
    · simp only [assemblePlots, hv, Except.mapError, Except.map, plotsAfterVolcano,
        tryAppend_eq, pathwaySeg]
      cases o.pathway <;> simp [tryAppend_eq]

/- ===== Pathway-enrichment plot: `generate_pathway_enrichment_plot`
(plot_generator.py 229-299) and its call site (research.py 150-160). -/

/-- Line 250: the pathway-name column candidates, in search order. -/
def pathwayNameCandidates : List ColName :=
  [nameOf "pathway", nameOf "term", nameOf "description", nameOf "name"]

/-- Line 255: the p-value column candidates, in search order. -/
def pathwayPvalueCandidates : List ColName :=
  [nameOf "pvalue", nameOf "p_value", nameOf "pval", nameOf "padj",
   nameOf "p_adj", nameOf "fdr"]

/-- The first candidate present among the enrichment table's columns (the
for/break loops of lines 250-263). -/
def findColumn (cands : List ColName) (cols : List ColName) : Option ColName :=
  cands.find? (fun c => decide (c ∈ cols))

/-- What the generator renders: a placeholder figure when either column is
missing (lines 265-273), a bar chart otherwise. -/
inductive PathwayArtifact where
  | placeholder
  | chart (pathwayCol pvalueCol : ColName)
deriving DecidableEq

/-- `generate_pathway_enrichment_plot` (229-299) restricted to its column
detection: headers are lower-cased (line 243), the two columns searched for,
and a placeholder returned when either is `None` — never an error. -/
def generate_pathway_enrichment_plot (cols : List ColName) : PathwayArtifact :=
  match findColumn pathwayNameCandidates (cols.map lowerName),
      findColumn pathwayPvalueCandidates (cols.map lowerName) with
  | some pc, some vc => PathwayArtifact.chart pc vc
  | _, _ => PathwayArtifact.placeholder

/-- The type tag under which the router appends the rendered artifact. -/
def pathwayPlotTag (a : PathwayArtifact) : String :=
  match a with
  | PathwayArtifact.placeholder => "pathway-placeholder"
  | PathwayArtifact.chart _ _ => "pathway-chart"

/-- Lines 150-160: with a parsed enrichment table the router renders the
pathway artifact and appends it (the generator returns normally in the
missing-column case, so the append happens). -/
def pathwayStep (enrichmentCols : Option (List ColName)) : Option StepResult :=
  enrichmentCols.map
    (fun cols => Except.ok (pathwayPlotTag (generate_pathway_enrichment_plot cols)))

/-- An enrichment table with no recognizable pathway or p-value column. -/
def enrichmentNoCols : List ColName := [nameOf "foo", nameOf "bar"]

/-- A request state with all main steps succeeding and a parsed enrichment
table whose columns are unrecognizable. -/
def outcomesWithEnrichment : ProcOutcomes :=
  { volcano := Except.ok "volcano"
    pca := Except.ok "pca"
    heatmap := Except.ok "heatmap"
    pathway := pathwayStep (some enrichmentNoCols)
    svm := Except.ok "svm"
    rf := Except.ok "rf"
    hc := Except.ok "hc"
    km := Except.ok "km"
    lasso := Except.ok "lasso"
    ridge := Except.ok "ridge" }

/-- C10 counterexample: with an enrichment table lacking any recognizable
pathway/p-value column, the generator returns a placeholder artifact and the
router still appends a pathway entry — the returned plot sequence CONTAINS
the pathway plot (as a placeholder) instead of omitting it. -/
theorem pathway_placeholder_present :
    generate_pathway_enrichment_plot enrichmentNoCols = PathwayArtifact.placeholder ∧
    assemblePlots outcomesWithEnrichment = Except.ok
      ["volcano", "pca", "heatmap", "pathway-placeholder", "svm", "rf", "hc",
       "km", "lasso", "ridge"] := by
  refine ⟨by decide, by rfl⟩

/-- C10 amended: when the enrichment table lacks a recognizable pathway-name
column or p-value column, the generator yields the placeholder artifact
(never an error), the request still succeeds, and the output is unchanged
except that the pathway slot holds the placeholder entry (instead of being
absent as without an enrichment table). -/
theorem pathway_missing_columns_placeholder (cols : List ColName) (o : ProcOutcomes)
    (h : findColumn pathwayNameCandidates (cols.map lowerName) = none ∨
         findColumn pathwayPvalueCandidates (cols.map lowerName) = none) :
    generate_pathway_enrichment_plot cols = PathwayArtifact.placeholder ∧
    ∀ v, o.volcano = Except.ok v →
      assemblePlots { o with pathway := pathwayStep (some cols) } = Except.ok
        (v :: (stepSeg o.pca ++ stepSeg o.heatmap ++ ["pathway-placeholder"] ++ stepSeg o.svm
          ++ stepSeg o.rf ++ stepSeg o.hc ++ stepSeg o.km ++ stepSeg o.lasso
          ++ stepSeg o.ridge)) ∧
      assemblePlots { o with pathway := none } = Except.ok
        (v :: (stepSeg o.pca ++ stepSeg o.heatmap ++ stepSeg o.svm
          ++ stepSeg o.rf ++ stepSeg o.hc ++ stepSeg o.km ++ stepSeg o.lasso
          ++ stepSeg o.ridge)) := by
  have hplc : generate_pathway_enrichment_plot cols = PathwayArtifact.placeholder := by
    unfold generate_pathway_enrichment_plot
    rcases h with h | h
    · rw [h]
    · rw [h]
      cases findColumn pathwayNameCandidates (cols.map lowerName) <;> rfl
  refine ⟨hplc, fun v hv => ⟨?_, ?_⟩⟩
  · simp only [assemblePlots, hv, pathwayStep, Option.map, hplc, pathwayPlotTag,
      tryAppend_eq, stepSeg]
    simp [List.append_assoc]
  · simp only [assemblePlots, hv, tryAppend_eq]
    simp [List.append_assoc]

theorem pathway_missing_columns_placeholder_witness :
    (findColumn pathwayNameCandidates (enrichmentNoCols.map lowerName) = none ∨
      findColumn pathwayPvalueCandidates (enrichmentNoCols.map lowerName) = none) ∧
    outcomesWithEnrichment.volcano = Except.ok "volcano" ∧
    generate_pathway_enrichment_plot enrichmentNoCols = PathwayArtifact.placeholder ∧
    assemblePlots { outcomesWithEnrichment with pathway := pathwayStep (some enrichmentNoCols) }
      = Except.ok
        ("volcano" :: (stepSeg outcomesWithEnrichment.pca ++ stepSeg outcomesWithEnrichment.heatmap
          ++ ["pathway-placeholder"] ++ stepSeg outcomesWithEnrichment.svm
          ++ stepSeg outcomesWithEnrichment.rf ++ stepSeg outcomesWithEnrichment.hc
          ++ stepSeg outcomesWithEnrichment.km ++ stepSeg outcomesWithEnrichment.lasso
          ++ stepSeg outcomesWithEnrichment.ridge)) :=
  ⟨by decide, rfl,
    (pathway_missing_columns_placeholder enrichmentNoCols outcomesWithEnrichment (by decide)).1,
    ((pathway_missing_columns_placeholder enrichmentNoCols outcomesWithEnrichment (by decide)).2
      "volcano" rfl).1⟩
